import Mathlib

/-!
Verification of the parallel UDP file-download system (server.py / client.py).

The embedding below translates the protocol logic of the two Python modules
into executable Lean definitions:

* bytes are modelled as `Nat`, file contents as `List Nat`;
* the server's per-address session dictionary is an association list;
* the dispatcher `handleClient` returns `Except Unit ...` where `.error ()`
  models an uncaught Python exception (e.g. a `KeyError` on a missing
  session lookup) escaping `handle_client`;
* datagrams sent by the server are collected in a list of
  (address, payload bytes) pairs;
* the client-side file system is a map `String → Option (List Nat)`.
-/

/-- Server configuration constant SEND_BUF from server.py. -/
def SEND_BUF : Nat := 65536

/-- Admin password constant PASSWORD from server.py. -/
def PASSWORD : String := "admin@1234"

/-- Client chunk unit CHUNK_SIZE from client.py (16 KiB). -/
def CHUNK_SIZE : Nat := 16384

/-- Server-side session state registered for one client address:
the open file (its byte content, the handle's cursor being re-seeked on
every GET) and the running `seq` counter that the GET handler increments. -/
structure Session where
  content : List Nat
  seq : Nat
deriving DecidableEq, Repr

/-- Whole-server state: the per-address session dictionary `_clients`
and the `_run` loop flag. -/
structure ServerState where
  clients : List (Nat × Session)
  run : Bool
deriving DecidableEq, Repr

/-- Commands of the wire protocol handled by `Server.handle_client`
(LIST is pure presentation and is needed by no claim, so it is omitted). -/
inductive Cmd where
  | down (path : String)
  | get (offset : Nat) (size : Int)
  | ack (offset : Nat)
  | quit
  | term (password : String)
deriving DecidableEq, Repr

/-- Association-list lookup modelling `self._clients[addr]` / `.get(addr)`. -/
def lookupClient : List (Nat × Session) → Nat → Option Session
  | [], _ => none
  | (a, s) :: rest, addr => if a = addr then some s else lookupClient rest addr

/-- Dictionary removal modelling `self._clients.pop(addr)`. -/
def removeClient : List (Nat × Session) → Nat → List (Nat × Session)
  | [], _ => []
  | (a, s) :: rest, addr => if a = addr then rest else (a, s) :: removeClient rest addr

/-- Dictionary assignment modelling `self._clients[addr] = ...`. -/
def insertClient : List (Nat × Session) → Nat → Session → List (Nat × Session)
  | [], addr, s => [(addr, s)]
  | (a, t) :: rest, addr, s =>
    if a = addr then (addr, s) :: rest else (a, t) :: insertClient rest addr s

/-- Directory lookup modelling `os.path.exists(filepath)` + `open(filepath, "rb")`
over the server's data directory. -/
def dirLookup : List (String × List Nat) → String → Option (List Nat)
  | [], _ => none
  | (p, c) :: rest, path => if p = path then some c else dirLookup rest path

/-- The GET handler's read, from server.py:
`chunk_size = min(abs(int(size)), SEND_BUF)` followed by
`file.seek(offset); contents = file.read(chunk_size or -1)`.
Note the `abs`: a negative requested size reads `min(|size|, SEND_BUF)` bytes;
only `size = 0` falls into `read(-1)`, i.e. read to end of file. -/
def serverGetReply (content : List Nat) (offset : Nat) (size : Int) : List Nat :=
  let chunk_size := min size.natAbs SEND_BUF
  if chunk_size = 0 then content.drop offset else (content.drop offset).take chunk_size

/-- Dispatcher `Server.handle_client`, one datagram at a time.
`.error ()` models an uncaught exception escaping the handler; in `Server.run`
the `except` clause guards only `recvfrom`, so such an exception terminates
the receive loop. -/
def handleClient (dir : List (String × List Nat)) (msg : Cmd) (addr : Nat)
    (st : ServerState) : Except Unit (ServerState × List (Nat × List Nat)) :=
  match msg with
  | .down path =>
    match dirLookup dir path with
    | some content =>
      .ok (⟨insertClient st.clients addr ⟨content, 0⟩, st.run⟩, [])
    | none => .ok (st, [])
  | .get offset size =>
    match lookupClient st.clients addr with
    | none => .error ()  -- KeyError: self._clients[addr] with no registered session
    | some sess =>
      let chunk_size := min size.natAbs SEND_BUF
      let contents := serverGetReply sess.content offset size
      .ok (⟨insertClient st.clients addr ⟨sess.content, sess.seq + chunk_size⟩, st.run⟩,
           [(addr, contents)])
  | .ack _ => .ok (st, [])
  | .quit =>
    match lookupClient st.clients addr with
    | some _ => .ok (⟨removeClient st.clients addr, st.run⟩, [])
    | none => .ok (st, [])
  | .term password =>
    if password = PASSWORD then .ok (⟨st.clients, false⟩, [])
    else .ok (st, [])

/-- Claim C1: the claim states that every GET reply is checksum-framed
(32-byte checksum immediately followed by exactly chunk_size payload bytes).
The server actually sends the bare payload: for a registered 3-byte file and
`GET 0 3` the reply datagram is exactly the 3 payload bytes and can be no
concatenation of a 32-byte checksum and a payload. -/
theorem server_get_reply_unframed :
    handleClient [] (Cmd.get 0 3) 7 ⟨[(7, ⟨[48, 49, 50], 0⟩)], true⟩ =
      .ok (⟨[(7, ⟨[48, 49, 50], 3⟩)], true⟩, [(7, [48, 49, 50])])
    ∧ ∀ cs payload : List Nat, cs.length = 32 → ([48, 49, 50] : List Nat) ≠ cs ++ payload := by
  refine ⟨rfl, ?_⟩
  intro cs payload hcs h
  have hlen := congrArg List.length h
  simp [hcs] at hlen
  omega

/-- Claim C1 witness: the bare 3-byte reply differs from the checksum-framed
packet (32 zero-bytes followed by the payload) the claim prescribes. -/
theorem server_get_reply_unframed_witness :
    ([48, 49, 50] : List Nat) ≠ List.replicate 32 0 ++ [48, 49, 50] :=
  server_get_reply_unframed.2 (List.replicate 32 0) [48, 49, 50] (by simp)

/-- Claim C4: the claim states GET and QUIT from an unregistered address are
handled non-fatally. QUIT is (`.get(addr)` with a `None` check), but GET does
an unguarded `self._clients[addr]` lookup: for an address with no session the
handler raises KeyError (modelled `.error ()`), which `Server.run` does not
catch, so the receive loop crashes. -/
theorem get_unknown_session_raises :
    handleClient [] (Cmd.get 0 100) 7 ⟨[], true⟩ = .error ()
    ∧ handleClient [] Cmd.quit 7 ⟨[], true⟩ = .ok (⟨[], true⟩, []) :=
  ⟨rfl, rfl⟩

/-- Claim C6: the claim (and the comment inside server.py's GET handler)
states a negative size reads the rest of the file. The code computes
`chunk_size = min(abs(size), SEND_BUF)`, so `GET 0 -1` on a registered
5-byte file replies with a single byte, not the remaining 5 bytes. -/
theorem get_negative_size_not_eof :
    handleClient [] (Cmd.get 0 (-1)) 7 ⟨[(7, ⟨[10, 20, 30, 40, 50], 0⟩)], true⟩ =
      .ok (⟨[(7, ⟨[10, 20, 30, 40, 50], 1⟩)], true⟩, [(7, [10])])
    ∧ ([10] : List Nat) ≠ [10, 20, 30, 40, 50] := by
  exact ⟨rfl, by decide⟩

/-- Claim C7: a TERM datagram clears the run flag exactly when the password
equals the configured secret; a wrong password leaves the state unchanged,
sends no reply, and raises no error. -/
theorem term_command_semantics (dir : List (String × List Nat)) (pw : String)
    (addr : Nat) (st : ServerState) :
    handleClient dir (Cmd.term pw) addr st =
      .ok ((if pw = PASSWORD then ⟨st.clients, false⟩ else st), [])
    ∧ (((if pw = PASSWORD then (⟨st.clients, false⟩ : ServerState) else st)).run = false ↔
        (pw = PASSWORD ∨ st.run = false)) := by
  constructor
  · simp only [handleClient]
    split
    · simp_all
    · simp_all
  · split
    · simp_all
    · simp_all

/-- Claim C7 witness: a wrong password against a running server leaves it
running with its session table intact and sends nothing. -/
theorem term_command_semantics_witness :
    handleClient [] (Cmd.term "wrongpassword") 3 ⟨[], true⟩ =
      .ok ((if "wrongpassword" = PASSWORD then (⟨[], false⟩ : ServerState) else ⟨[], true⟩), [])
    ∧ ((if "wrongpassword" = PASSWORD then (⟨[], false⟩ : ServerState) else (⟨[], true⟩ : ServerState)).run = false ↔
        ("wrongpassword" = PASSWORD ∨ (⟨[], true⟩ : ServerState).run = false)) :=
  term_command_semantics [] "wrongpassword" 3 ⟨[], true⟩

/-- Segment size computation from Client.download:
`quotient, remainder = divmod(file_size, 4)` and
`sizes = [quotient] * 3 + [quotient + remainder]`. -/
def segmentSizes (S : Nat) : List Nat :=
  let quotient := S / 4
  let remainder := S % 4
  [quotient, quotient, quotient, quotient + remainder]

/-- itertools.accumulate: running sums of a list. -/
def accumulate (l : List Nat) : List Nat :=
  (l.scanl (fun a b => a + b) 0).drop 1

/-- Segment offset computation from Client.download:
`offsets = [0] + list(itertools.accumulate(sizes[:-1]))`. -/
def segmentOffsets (S : Nat) : List Nat :=
  0 :: accumulate (segmentSizes S).dropLast

theorem segmentSizes_eq (S : Nat) :
    segmentSizes S = [S / 4, S / 4, S / 4, S / 4 + S % 4] := rfl

theorem segmentOffsets_eq (S : Nat) :
    segmentOffsets S = [0, S / 4, S / 4 + S / 4, S / 4 + S / 4 + S / 4] := by
  simp [segmentOffsets, accumulate, segmentSizes, List.scanl]

/-- Claim C2: the orchestrator splits [0, S) into 4 contiguous, pairwise
disjoint segments covering [0, S) exactly; all segments but the last have
size S / 4 and the last absorbs the remainder. Coverage and disjointness
are expressed by unique membership of every byte position x < S. -/
theorem segment_partition_correct (S x : Nat) (hx : x < S) :
    (segmentSizes S).length = 4
    ∧ (segmentSizes S).sum = S
    ∧ (segmentOffsets S).getD 0 0 = 0
    ∧ (∀ i, i < 3 →
        (segmentOffsets S).getD (i + 1) 0 =
          (segmentOffsets S).getD i 0 + (segmentSizes S).getD i 0)
    ∧ (∀ i, i < 3 → (segmentSizes S).getD i 0 = S / 4)
    ∧ (segmentSizes S).getD 3 0 = S / 4 + S % 4
    ∧ ∃! i, i < 4 ∧ (segmentOffsets S).getD i 0 ≤ x
        ∧ x < (segmentOffsets S).getD i 0 + (segmentSizes S).getD i 0 := by
  have hdm : 4 * (S / 4) + S % 4 = S := Nat.div_add_mod S 4
  have hmod : S % 4 < 4 := Nat.mod_lt _ (by omega)
  refine ⟨rfl, ?_, ?_, ?_, ?_, ?_, ?_⟩
  · rw [segmentSizes_eq]; simp; omega
  · rw [segmentOffsets_eq]; simp
  · intro i hi
    interval_cases i <;> (rw [segmentSizes_eq, segmentOffsets_eq]; simp)
  · intro i hi
    interval_cases i <;> rw [segmentSizes_eq] <;> simp
  · rw [segmentSizes_eq]; simp
  · rw [segmentSizes_eq, segmentOffsets_eq]
    rcases Nat.lt_or_ge x (S / 4) with h0 | h0
    · refine ⟨0, ⟨by omega, by simp, by simp; omega⟩, ?_⟩
      intro j ⟨hj, hj1, hj2⟩
      interval_cases j <;> simp_all <;> omega
    rcases Nat.lt_or_ge x (S / 4 + S / 4) with h1 | h1
    · refine ⟨1, ⟨by omega, by simp; omega, by simp; omega⟩, ?_⟩
      intro j ⟨hj, hj1, hj2⟩
      interval_cases j <;> simp_all <;> omega
    rcases Nat.lt_or_ge x (S / 4 + S / 4 + S / 4) with h2 | h2
    · refine ⟨2, ⟨by omega, by simp; omega, by simp; omega⟩, ?_⟩
      intro j ⟨hj, hj1, hj2⟩
      interval_cases j <;> simp_all <;> omega
    · refine ⟨3, ⟨by omega, by simp; omega, by simp; omega⟩, ?_⟩
      intro j ⟨hj, hj1, hj2⟩
      interval_cases j <;> simp_all <;> omega

/-- Claim C2 witness: the partition facts evaluated for a 10-byte file at
byte position 7, which lies uniquely in the final segment [6, 10). -/
theorem segment_partition_correct_witness :
    (segmentSizes 10).length = 4
    ∧ (segmentSizes 10).sum = 10
    ∧ (segmentOffsets 10).getD 0 0 = 0
    ∧ (∀ i, i < 3 →
        (segmentOffsets 10).getD (i + 1) 0 =
          (segmentOffsets 10).getD i 0 + (segmentSizes 10).getD i 0)
    ∧ (∀ i, i < 3 → (segmentSizes 10).getD i 0 = 10 / 4)
    ∧ (segmentSizes 10).getD 3 0 = 10 / 4 + 10 % 4
    ∧ ∃! i, i < 4 ∧ (segmentOffsets 10).getD i 0 ≤ 7
        ∧ 7 < (segmentOffsets 10).getD i 0 + (segmentSizes 10).getD i 0 :=
  segment_partition_correct 10 7 (by decide)

/-- One per-segment percentage term `int(total / size * 100)` from
Client._update_progress; `none` models the ZeroDivisionError Python raises
when the segment size is zero. -/
def progressOf (total size : Nat) : Option Nat :=
  if size = 0 then none else some (total * 100 / size)

/-- The per-segment percentage list
`[int(total / size * 100) for total, size in zip(totals, sizes)]`;
`none` when any zipped pair divides by zero. -/
def progresses : List Nat → List Nat → Option (List Nat)
  | _, [] => some []
  | [], _ :: _ => some []
  | t :: ts, s :: ss =>
    match progressOf t s with
    | none => none
    | some p =>
      match progresses ts ss with
      | none => none
      | some ps => some (p :: ps)

/-- Claim C10: for a file of fewer than 4 bytes the computed partition
contains zero-length segments and the progress computation divides by zero
(`none`); segment sizes are all positive exactly for file sizes of at
least 4 bytes, and for those the progress computation is total. -/
theorem small_file_progress_division_by_zero (S : Nat) (totals : List Nat)
    (hS : S < 4) (htot : totals.length = 4) :
    0 ∈ segmentSizes S
    ∧ progresses totals (segmentSizes S) = none
    ∧ (∀ T, ((∀ s ∈ segmentSizes T, 0 < s) ↔ 4 ≤ T))
    ∧ (∀ T ts, 4 ≤ T → (progresses ts (segmentSizes T)).isSome = true) := by
  have hq : S / 4 = 0 := Nat.div_eq_of_lt hS
  refine ⟨?_, ?_, ?_, ?_⟩
  · rw [segmentSizes_eq, hq]; simp
  · rcases totals with _ | ⟨t0, _ | ⟨t1, _ | ⟨t2, _ | ⟨t3, rest⟩⟩⟩⟩ <;> simp at htot
    rw [segmentSizes_eq, hq]
    simp [progresses, progressOf]
  · intro T
    have hdm : 4 * (T / 4) + T % 4 = T := Nat.div_add_mod T 4
    have hmod : T % 4 < 4 := Nat.mod_lt _ (by omega)
    rw [segmentSizes_eq]
    simp only [List.mem_cons, List.not_mem_nil, or_false]
    constructor
    · intro hall
      have h0 := hall (T / 4) (Or.inl rfl)
      omega
    · intro hT s hs
      have : 0 < T / 4 := by
        rcases Nat.lt_or_ge T 4 with h | h
        · omega
        · exact Nat.div_pos h (by omega)
      rcases hs with h | h | h | h <;> omega
  · intro T ts hT
    have hdm : 4 * (T / 4) + T % 4 = T := Nat.div_add_mod T 4
    have hq4 : T / 4 ≠ 0 := by
      have : 0 < T / 4 := Nat.div_pos hT (by omega)
      omega
    have hq4r : T / 4 + T % 4 ≠ 0 := by omega
    rw [segmentSizes_eq]
    rcases ts with _ | ⟨a, _ | ⟨b, _ | ⟨c, _ | ⟨d, rest⟩⟩⟩⟩ <;>
      simp [progresses, progressOf, hq4, hq4r]

/-- Claim C10 witness: a 2-byte file yields the partition [0, 0, 0, 2],
which contains a zero-length segment, and the percentage computation on it
divides by zero. -/
theorem small_file_progress_division_by_zero_witness :
    0 ∈ segmentSizes 2
    ∧ progresses [0, 0, 0, 0] (segmentSizes 2) = none
    ∧ (∀ T, ((∀ s ∈ segmentSizes T, 0 < s) ↔ 4 ≤ T))
    ∧ (∀ T ts, 4 ≤ T → (progresses ts (segmentSizes T)).isSome = true) :=
  small_file_progress_division_by_zero 2 [0, 0, 0, 0] (by decide) (by decide)

/-- One scripted network outcome for a single GET attempt in
Client._try_recv: `none` is a receive timeout, `some (cs, payload)` is a
packet already split by the fixed-width struct format 32s{chunk_size}s into
its 32-byte checksum field and its payload field. -/
abbrev Reply : Type := Option (List Nat × List Nat)

/-- Client._try_recv with the md5 hex digest treated as an opaque function.
Returns (number of GET datagrams sent, the Python variable `data` at return).
Faithful detail: `checksum, data = struct.unpack(...)` assigns `data` before
the checksum comparison, so a mismatching payload stays in `data` when the
attempt budget runs out. -/
def tryRecvAux (md5hex : List Nat → List Nat) :
    Nat → List Reply → Option (List Nat) → Nat × Option (List Nat)
  | 0, _, data => (0, data)
  | attempts + 1, replies, data =>
    match replies with
    | [] =>
      -- no datagram arrives: TimeoutError, attempts -= 1, continue
      let p := tryRecvAux md5hex attempts [] data
      (p.1 + 1, p.2)
    | r :: rest =>
      match r with
      | none =>
        let p := tryRecvAux md5hex attempts rest data
        (p.1 + 1, p.2)
      | some (cs, payload) =>
        if cs = md5hex payload then (1, some payload)  -- verified: break
        else
          let p := tryRecvAux md5hex attempts rest (some payload)
          (p.1 + 1, p.2)

/-- Client._try_recv with its default budget of 5 attempts and `data = None`
initially. -/
def tryRecv (md5hex : List Nat → List Nat) (replies : List Reply) :
    Nat × Option (List Nat) :=
  tryRecvAux md5hex 5 replies none

/-- An attempt outcome that the claim calls invalid: a timeout, or a packet
whose checksum field differs from the digest of its payload field. -/
def invalidReply (md5hex : List Nat → List Nat) (r : Reply) : Prop :=
  match r with
  | none => True
  | some (cs, payload) => cs ≠ md5hex payload

theorem tryRecvAux_all_invalid (md5hex : List Nat → List Nat) :
    ∀ (attempts : Nat) (replies : List Reply) (data : Option (List Nat)),
      (∀ r ∈ replies, invalidReply md5hex r) →
      (tryRecvAux md5hex attempts replies data).1 = attempts := by
  intro attempts
  induction attempts with
  | zero => intro replies data _; rfl
  | succ a ih =>
    intro replies data hinv
    cases replies with
    | nil => simp [tryRecvAux, ih [] data (by simp)]
    | cons r rest =>
      have hrest : ∀ q ∈ rest, invalidReply md5hex q := by
        intro q hq; exact hinv q (List.mem_cons_of_mem r hq)
      have hr : invalidReply md5hex r := hinv r (List.mem_cons_self r rest)
      cases r with
      | none => simp [tryRecvAux, ih rest data hrest]
      | some p =>
        obtain ⟨cs, payload⟩ := p
        have hne : cs ≠ md5hex payload := hr
        simp [tryRecvAux, hne, ih rest (some payload) hrest]

/-- A stand-in digest for the opaque md5 hex encoding in the concrete
failure scenario: every payload hashes to 32 one-bytes. -/
def md5stub : List Nat → List Nat := fun _ => List.replicate 32 1

/-- Five scripted replies whose checksum field (32 zero-bytes) never matches
the digest of their payload [7, 7]: every attempt is a checksum mismatch. -/
def badReplies : List Reply :=
  List.replicate 5 (some (List.replicate 32 0, [7, 7]))

/-- Claim C5: the claim states that when every attempt ends in timeout or
checksum mismatch, _try_recv sends the GET exactly 5 times and returns a
failure value (None), never accepting a payload that failed verification.
The code does send exactly 5 times, but because `data` is assigned by
struct.unpack before the checksum test, exhausting the budget on mismatches
returns the last unverified payload instead of None, and the worker then
writes it to the spill file as if accepted. -/
theorem try_recv_mismatch_returns_stale :
    tryRecv md5stub badReplies = (5, some [7, 7])
    ∧ (some [7, 7] : Option (List Nat)) ≠ none
    ∧ (∀ r ∈ badReplies, invalidReply md5stub r) := by
  refine ⟨rfl, by simp, ?_⟩
  intro r hr
  simp [badReplies] at hr
  subst hr
  simp [invalidReply, md5stub]

/-- What the client ends up accepting for one GET of `csize` bytes at
`offset` when transport and checksum verification succeed: the server's read
(serverGetReply, from server.py) cut to the payload field width of the
client's fixed 32s{csize}s framing, which holds exactly csize bytes. -/
def acceptedChunk (content : List Nat) (offset csize : Nat) : List Nat :=
  (serverGetReply content offset (csize : Int)).take csize

theorem acceptedChunk_eq (content : List Nat) (offset csize : Nat)
    (h : csize ≤ SEND_BUF) :
    acceptedChunk content offset csize = (content.drop offset).take csize := by
  unfold acceptedChunk serverGetReply
  simp only [Int.natAbs_ofNat]
  rcases Nat.eq_zero_or_pos csize with h0 | h0
  · subst h0; simp
  · have hmin : min csize SEND_BUF = csize := by omega
    rw [hmin]
    have : ¬ csize = 0 := by omega
    simp only [this, if_false, List.take_take, Nat.min_self]

/-- The oracle a correctly behaving network and server present to the
worker: every GET is answered and verifies, delivering acceptedChunk. -/
def idealRecv (content : List Nat) : Nat → Nat → Option (List Nat) :=
  fun offset csize => some (acceptedChunk content offset csize)

/-- The chunk loop of Client._download, over an abstract receive oracle
(the role _try_recv plays): compute `csize = min(CHUNK_SIZE, size - total)`,
receive, abort on None (the worker then sets its failed flag), else append
the data to the spill file, advance, and stop once `total == size`.
Structured with a fuel argument for structural recursion; `size + 1` units
of fuel always suffice (each non-final round strictly increases `total`). -/
def downloadSegmentAux (recvData : Nat → Nat → Option (List Nat)) :
    Nat → Nat → Nat → Nat → List Nat → Option (List Nat)
  | 0, _, _, _, _ => none
  | fuel + 1, offset, size, total, acc =>
    let csize := min CHUNK_SIZE (size - total)
    match recvData offset csize with
    | none => none
    | some data =>
      let acc2 := acc ++ data
      let total2 := min (total + csize) size
      if total2 = size then some acc2
      else downloadSegmentAux recvData fuel (offset + csize) size total2 acc2

/-- Client._download's loop entered with `total = 0` and an empty spill
file; the result is the final spill-file content on success. -/
def downloadSegment (recvData : Nat → Nat → Option (List Nat))
    (offset size : Nat) : Option (List Nat) :=
  downloadSegmentAux recvData (size + 1) offset size 0 []

theorem downloadSegmentAux_ideal (content : List Nat) :
    ∀ (fuel offset size total : Nat) (acc : List Nat),
      total ≤ size → size - total < fuel →
      downloadSegmentAux (idealRecv content) fuel offset size total acc =
        some (acc ++ (content.drop offset).take (size - total)) := by
  intro fuel
  induction fuel with
  | zero => intro offset size total acc _ hfuel; omega
  | succ f ih =>
    intro offset size total acc htot hfuel
    have hcs : min CHUNK_SIZE (size - total) ≤ SEND_BUF := by
      unfold CHUNK_SIZE SEND_BUF; omega
    rw [downloadSegmentAux]
    simp only [idealRecv, acceptedChunk_eq content offset _ hcs]
    set csize := min CHUNK_SIZE (size - total) with hcsize
    have hle : csize ≤ size - total := by omega
    have htot2 : min (total + csize) size = total + csize := by omega
    rw [htot2]
    have hck : CHUNK_SIZE = 16384 := rfl
    rw [hck] at hcsize
    by_cases hdone : total + csize = size
    · simp only [hdone, if_true]
      have : csize = size - total := by omega
      rw [this]
    · simp only [hdone, if_false]
      have hcpos : 1 ≤ csize := by omega
      have hrec := ih (offset + csize) size (total + csize) (acc ++ (content.drop offset).take csize)
        (by omega) (by omega)
      rw [hrec, List.append_assoc]
      have hsplit : (content.drop offset).take csize ++
          ((content.drop offset).drop csize).take (size - (total + csize)) =
          (content.drop offset).take (size - total) := by
        rw [← List.take_add]
        congr 1
        omega
      rw [List.drop_drop] at hsplit
      rw [hsplit]

/-- Under the ideal oracle every worker's spill file is exactly its
assigned byte range of the source file. -/
theorem downloadSegment_ideal (content : List Nat) (offset size : Nat) :
    downloadSegment (idealRecv content) offset size =
      some ((content.drop offset).take size) := by
  unfold downloadSegment
  rw [downloadSegmentAux_ideal content (size + 1) offset size 0 [] (by omega) (by omega)]
  simp

/-- Client-side file system: path to byte content. -/
def Fs : Type := String → Option (List Nat)

/-- Writing a whole file (`open(path, "wb")` followed by the writes). -/
def fsWrite (fs : Fs) (p : String) (v : List Nat) : Fs :=
  fun q => if q = p then some v else fs q

/-- `os.remove(path)`. -/
def fsRemove (fs : Fs) (p : String) : Fs :=
  fun q => if q = p then none else fs q

/-- Client DATA_FOLDER constant. -/
def DATA_FOLDER : String := "client_data"

/-- The spill-file paths from Client.download:
`[os.path.join(DATA_FOLDER, f"part_{i}") for i in range(4)]`. -/
def chunkPaths : List String :=
  (List.range 4).map (fun i => DATA_FOLDER ++ "/part_" ++ toString i)

/-- The merge loop of Client.download: for each chunk path in index order,
read the spill file (None models the FileNotFoundError were it missing),
append its bytes to the destination, and delete the spill file. -/
def mergeLoop (dest : String) : Fs → List String → Option Fs
  | fs, [] => some fs
  | fs, p :: rest =>
    match fs p with
    | none => none
    | some bytes =>
      mergeLoop dest (fsRemove (fsWrite fs dest ((fs dest).getD [] ++ bytes)) p) rest

/-- The whole merge step: the destination is opened with mode "wb"
(truncated to empty) and the spill files are concatenated in index order. -/
def mergeParts (fs : Fs) (dest : String) (paths : List String) : Option Fs :=
  mergeLoop dest (fsWrite fs dest []) paths

theorem mergeLoop_spec (dest : String) :
    ∀ (paths : List String) (cs : List (List Nat)) (fs : Fs) (acc : List Nat),
      paths.Nodup → dest ∉ paths → paths.length = cs.length →
      fs dest = some acc →
      (∀ i, i < paths.length → fs (paths.getD i "") = some (cs.getD i [])) →
      ∃ fs', mergeLoop dest fs paths = some fs'
        ∧ fs' dest = some (acc ++ cs.flatten)
        ∧ (∀ p ∈ paths, fs' p = none)
        ∧ (∀ q, q ≠ dest → q ∉ paths → fs' q = fs q) := by
  intro paths
  induction paths with
  | nil =>
    intro cs fs acc _ _ hlen hdest _
    refine ⟨fs, rfl, ?_, by simp, fun q _ _ => rfl⟩
    have hcs0 : cs.length = 0 := by simpa using hlen.symm
    have : cs = [] := List.eq_nil_of_length_eq_zero hcs0
    simp [this, hdest]
  | cons p rest ih =>
    intro cs fs acc hnodup hdest hlen hacc hread
    cases cs with
    | nil => simp at hlen
    | cons c cs' =>
      have hp : fs p = some c := by
        have := hread 0 (by simp)
        simpa using this
      have hdp : dest ≠ p := by
        intro h; exact hdest (h ▸ List.mem_cons_self p rest)
      have hdrest : dest ∉ rest := fun h => hdest (List.mem_cons_of_mem p h)
      have hprest : p ∉ rest := (List.nodup_cons.mp hnodup).1
      have hnodup' : rest.Nodup := (List.nodup_cons.mp hnodup).2
      set fs2 := fsRemove (fsWrite fs dest ((fs dest).getD [] ++ c)) p with hfs2
      have hacc2 : fs2 dest = some (acc ++ c) := by
        simp [hfs2, fsRemove, fsWrite, hdp, hacc]
      have hread2 : ∀ i, i < rest.length → fs2 (rest.getD i "") = some (cs'.getD i []) := by
        intro i hi
        have hmem : rest.getD i "" ∈ rest := by
          rw [List.getD_eq_getElem rest "" hi]
          exact List.getElem_mem hi
        have h1 : rest.getD i "" ≠ p := fun h => hprest (h ▸ hmem)
        have h2 : rest.getD i "" ≠ dest := fun h => hdrest (h ▸ hmem)
        have hstep := hread (i + 1) (by simp; omega)
        rw [List.getD_cons_succ, List.getD_cons_succ] at hstep
        rw [hfs2]
        simp only [fsRemove, fsWrite]
        rw [if_neg h1, if_neg h2]
        exact hstep
      obtain ⟨fs', hloop, hdest', hnone, hrestq⟩ :=
        ih cs' fs2 (acc ++ c) hnodup' hdrest (by simpa using hlen) hacc2 hread2
      refine ⟨fs', ?_, ?_, ?_, ?_⟩
      · rw [mergeLoop, hp]
        show mergeLoop dest (fsRemove (fsWrite fs dest ((fs dest).getD [] ++ c)) p) rest = some fs'
        rw [← hfs2]
        exact hloop
      · rw [hdest']
        simp [List.append_assoc]
      · intro q hq
        rcases List.mem_cons.mp hq with h | h
        · subst h
          rw [hrestq q (fun h => hdp h.symm) hprest]
          simp [hfs2, fsRemove]
        · exact hnone q h
      · intro q hqd hqp
        have hq1 : q ∉ rest := fun h => hqp (List.mem_cons_of_mem p h)
        have hq2 : q ≠ p := fun h => hqp (h ▸ List.mem_cons_self p rest)
        rw [hrestq q hqd hq1]
        simp [hfs2, fsRemove, fsWrite, hq2, hqd]

theorem four_slices (l : List Nat) (q r : Nat) (h : q + (q + (q + (q + r))) = l.length) :
    l.take q ++ ((l.drop q).take q ++ ((l.drop (q + q)).take q ++ (l.drop (q + q + q)).take (q + r))) = l := by
  have e2 : l.drop (q + q) = (l.drop q).drop q := (List.drop_drop q q l).symm
  have e3 : l.drop (q + q + q) = ((l.drop q).drop q).drop q := by
    rw [List.drop_drop, List.drop_drop]
    congr 1
    omega
  rw [e2, e3, ← List.take_add, ← List.take_add, ← List.take_add, h, List.take_length]

/-- The spill file produced by worker `i` when transport and verification
succeed on every chunk: the download loop run over the worker's assigned
offset and size under the ideal oracle. -/
def spillFor (content : List Nat) (i : Nat) : Option (List Nat) :=
  downloadSegment (idealRecv content)
    ((segmentOffsets content.length).getD i 0)
    ((segmentSizes content.length).getD i 0)

theorem chunkPaths_eq :
    chunkPaths = ["client_data/part_0", "client_data/part_1",
                  "client_data/part_2", "client_data/part_3"] := by decide

/-- Claim C3: if all four workers complete successfully (their spill files
hold what the download loop produces under a correctly delivering server),
merging the four spill files in ascending index order into the destination
reproduces the source content byte for byte, and every spill file has been
deleted afterwards. -/
theorem download_merge_round_trip (content : List Nat) (fs : Fs) (dest : String)
    (hdest : dest ∉ chunkPaths)
    (hfs : ∀ i, i < 4 → fs (chunkPaths.getD i "") = spillFor content i) :
    ∃ fs', mergeParts fs dest chunkPaths = some fs'
      ∧ fs' dest = some content
      ∧ ∀ p ∈ chunkPaths, fs' p = none := by
  set S := content.length with hS
  set q := S / 4 with hq
  set r := S % 4 with hr
  have hdm : 4 * q + r = S := Nat.div_add_mod S 4
  set cs : List (List Nat) :=
    [(content.drop 0).take q, (content.drop q).take q,
     (content.drop (q + q)).take q, (content.drop (q + q + q)).take (q + r)] with hcs
  have hspill : ∀ i, i < 4 → spillFor content i = some (cs.getD i []) := by
    intro i hi
    interval_cases i <;>
      simp only [spillFor, segmentOffsets_eq, segmentSizes_eq, hcs, ← hS, ← hq, ← hr,
        List.getD_cons_zero, List.getD_cons_succ, downloadSegment_ideal]
  have hnodup : chunkPaths.Nodup := by rw [chunkPaths_eq]; decide
  have hlen : chunkPaths.length = cs.length := by rw [chunkPaths_eq, hcs]; simp
  have hfs1dest : fsWrite fs dest [] dest = some [] := by simp [fsWrite]
  have hfs1read : ∀ i, i < chunkPaths.length →
      fsWrite fs dest [] (chunkPaths.getD i "") = some (cs.getD i []) := by
    intro i hi
    rw [chunkPaths_eq] at hi
    simp only [List.length_cons, List.length_nil] at hi
    have hmem : chunkPaths.getD i "" ∈ chunkPaths := by
      rw [List.getD_eq_getElem chunkPaths "" (by rw [chunkPaths_eq]; simpa using hi)]
      exact List.getElem_mem _
    have hne : chunkPaths.getD i "" ≠ dest := fun h => hdest (h ▸ hmem)
    rw [fsWrite]
    simp only [hne, if_false]
    rw [hfs i (by omega), hspill i (by omega)]
  obtain ⟨fs', hloop, hdest', hnone, _⟩ :=
    mergeLoop_spec dest chunkPaths cs (fsWrite fs dest []) [] hnodup hdest hlen hfs1dest hfs1read
  refine ⟨fs', hloop, ?_, hnone⟩
  rw [hdest']
  have hflat : cs.flatten = content := by
    rw [hcs]
    simp only [List.flatten_cons, List.flatten_nil, List.append_nil, List.drop_zero]
    exact four_slices content q r (by omega)
  rw [hflat]
  simp

/-- File system holding exactly the four successful spill files for the
6-byte source [10, 20, 30, 40, 50, 60]. -/
def fsSpilled : Fs := fun p =>
  if p = "client_data/part_0" then spillFor [10, 20, 30, 40, 50, 60] 0
  else if p = "client_data/part_1" then spillFor [10, 20, 30, 40, 50, 60] 1
  else if p = "client_data/part_2" then spillFor [10, 20, 30, 40, 50, 60] 2
  else if p = "client_data/part_3" then spillFor [10, 20, 30, 40, 50, 60] 3
  else none

/-- Claim C3 witness: downloading and merging the 6-byte file
[10, 20, 30, 40, 50, 60] (segments of sizes 1, 1, 1, 3) reproduces it
exactly, with all four spill files deleted. -/
theorem download_merge_round_trip_witness :
    ∃ fs', mergeParts fsSpilled "client_data/out.bin" chunkPaths = some fs'
      ∧ fs' "client_data/out.bin" = some [10, 20, 30, 40, 50, 60]
      ∧ ∀ p ∈ chunkPaths, fs' p = none :=
  download_merge_round_trip [10, 20, 30, 40, 50, 60] fsSpilled "client_data/out.bin"
    (by decide) (by decide)

/-- The k-th candidate output filename from Client.download's collision
loop: the plain `name + ext` first, then `name (k) ext` for k = 1, 2, ...
(`name, ext = os.path.splitext(filename)`). -/
def candidateName (name ext : String) (k : Nat) : String :=
  if k = 0 then name ++ ext else name ++ " (" ++ toString k ++ ")" ++ ext

/-- The collision loop of Client.download: check the current candidate with
`os.path.exists` (the predicate `ex`), stop at the first free name,
otherwise move to the next numbered candidate. Fuel-structured; any fuel
beyond the first free index suffices. -/
def resolveLoop (ex : String → Bool) (name ext : String) : Nat → Nat → Option String
  | 0, _ => none
  | fuel + 1, k =>
    if ex (candidateName name ext k) = false then some (candidateName name ext k)
    else resolveLoop ex name ext fuel (k + 1)

/-- Entry into the collision loop with the plain filename. -/
def resolveName (ex : String → Bool) (name ext : String) (fuel : Nat) : Option String :=
  resolveLoop ex name ext fuel 0

theorem resolveLoop_spec (ex : String → Bool) (name ext : String) :
    ∀ (fuel j k : Nat), j ≤ k →
      (∀ i, j ≤ i → i < k → ex (candidateName name ext i) = true) →
      ex (candidateName name ext k) = false →
      k - j < fuel →
      resolveLoop ex name ext fuel j = some (candidateName name ext k) := by
  intro fuel
  induction fuel with
  | zero => intro j k _ _ _ hk; omega
  | succ f ih =>
    intro j k hjk hbusy hfree hk
    rw [resolveLoop]
    by_cases hj : j = k
    · subst hj
      simp [hfree]
    · have hlt : j < k := by omega
      have hb := hbusy j (by omega) hlt
      simp only [hb]
      simp only [Bool.true_eq_false, if_false]
      exact ih (j + 1) k (by omega) (fun i h1 h2 => hbusy i (by omega) h2) hfree (by omega)

/-- Claim C8: if the plain name and the numbered candidates 1 .. k-1 all
already exist and candidate k is free, the collision loop resolves to
candidate k, which does not exist — so an existing file is never
overwritten, and the k-th request for the same name (after k-1 earlier
downloads of it) yields the suffix (k-1). -/
theorem filename_collision_resolution (ex : String → Bool) (name ext : String)
    (k fuel : Nat)
    (hbusy : ∀ i, i < k → ex (candidateName name ext i) = true)
    (hfree : ex (candidateName name ext k) = false)
    (hfuel : k < fuel) :
    resolveName ex name ext fuel = some (candidateName name ext k)
    ∧ ex (candidateName name ext k) = false := by
  refine ⟨?_, hfree⟩
  exact resolveLoop_spec ex name ext fuel 0 k (by omega)
    (fun i _ h2 => hbusy i h2) hfree (by omega)

/-- Existing-file predicate for the C8 witness: the output directory already
holds "f.txt" and "f (1).txt". -/
def exTwo : String → Bool := fun s => s = "f.txt" || s = "f (1).txt"

/-- Claim C8 witness: with "f.txt" and "f (1).txt" taken, the third request
for "f.txt" resolves to the free name "f (2).txt" and overwrites nothing. -/
theorem filename_collision_resolution_witness :
    (resolveName exTwo "f" ".txt" 10 = some (candidateName "f" ".txt" 2)
      ∧ exTwo (candidateName "f" ".txt" 2) = false)
    ∧ candidateName "f" ".txt" 2 = "f (2).txt" :=
  ⟨filename_collision_resolution exTwo "f" ".txt" 2 10
      (by decide) (by decide) (by decide),
    by decide⟩

/-- The tail of Client.download after all workers have been joined: if any
segment's failed flag is set, report failure and stop before the collision
loop and the merge (the file system is returned untouched); otherwise
resolve the output name and merge the spill files. -/
def downloadFinish (errors : List Bool) (fs : Fs) (ex : String → Bool)
    (name ext : String) (fuel : Nat) : Option (Bool × Fs) :=
  if errors.any (fun b => b) then some (false, fs)
  else
    match resolveName ex name ext fuel with
    | none => none
    | some newpath =>
      match mergeParts fs newpath chunkPaths with
      | none => none
      | some fs2 => some (true, fs2)

/-- Claim C9: when a failed flag is set after the join, the download
reports failure and returns the file system exactly as it was — no merged
output file is created and no spill file is deleted. -/
theorem failed_download_no_merge (errors : List Bool) (fs : Fs)
    (ex : String → Bool) (name ext : String) (fuel : Nat)
    (h : errors.any (fun b => b) = true) :
    downloadFinish errors fs ex name ext fuel = some (false, fs) := by
  rw [downloadFinish, if_pos h]

/-- Empty client file system. -/
def fsEmpty : Fs := fun _ => none

/-- Claim C9 witness: with segment 1 failed, the finish step reports
failure on the untouched file system. -/
theorem failed_download_no_merge_witness :
    downloadFinish [false, true, false, false] fsEmpty exTwo "f" ".txt" 10 =
      some (false, fsEmpty) :=
  failed_download_no_merge [false, true, false, false] fsEmpty exTwo "f" ".txt" 10
    (by decide)

/-- Claim C5 witness: each of the five scripted replies is indeed an
invalid (checksum-mismatching) attempt. -/
theorem try_recv_mismatch_returns_stale_witness :
    invalidReply md5stub (some (List.replicate 32 0, [7, 7])) :=
  try_recv_mismatch_returns_stale.2.2 (some (List.replicate 32 0, [7, 7]))
    (by simp [badReplies])
